import Mathlib

/-!
Shallow embedding of the text-presence classification pipeline of the
`shitpost-gan` repository.

Source files embedded here:
  * `src/data/filter_no_text.py` — the three-way classifier
    `classify_text_type` (verdicts none / overlay / meme), its module-level
    threshold constants, and the triage driver `main`.
  * `src/filter_no_text.py` — the two-way classifier `has_text_easyocr`
    and its driver.

Coordinates and thresholds are modelled as rationals (Python floats appear
only in threshold comparisons on small exact decimals); character counts as
naturals.  Python exceptions (ZeroDivisionError from `x / 0.0`, ValueError
from `min([])`) are modelled with `Except`.

Naming note: the Python constants `MEME_MIN_REGION_AREA_RATIO` etc. end in
a suffix our identifier conventions avoid, so the `_RATIO` suffix of the
source constants is dropped or rendered as `Frac` in field and function
names; values and semantics are unchanged.
-/

/-- One OCR detection, as returned by `reader.readtext`: a quadrilateral
region (list of points), the recognized text, and a confidence. -/
structure Detection where
  region : List (ℚ × ℚ)
  text : String
  conf : ℚ
deriving DecidableEq, Repr

/-- The three verdicts of `classify_text_type`. -/
inductive Verdict where
  | none
  | overlay
  | meme
deriving DecidableEq, Repr

/-- Python runtime errors the embedded code can raise. -/
inductive PyErr where
  | valueError
  | zeroDivisionError
deriving DecidableEq, Repr

/-- Threshold configuration: the module-level constants of
`src/data/filter_no_text.py` (the `_RATIO` suffixes of the source names are
dropped, see the header note). -/
structure Thresholds where
  min_total_chars : ℚ
  meme_min_region_area : ℚ
  meme_min_width : ℚ
  meme_min_total_area : ℚ
  meme_min_total_chars : ℚ
  max_overlay_total_area : ℚ
  max_overlay_region_area : ℚ
deriving DecidableEq, Repr

/-- The default configuration: the constant values at the top of
`src/data/filter_no_text.py`. -/
def defaultThresholds : Thresholds :=
  { min_total_chars := 3
    meme_min_region_area := 0.10
    meme_min_width := 0.7
    meme_min_total_area := 0.20
    meme_min_total_chars := 25
    max_overlay_total_area := 0.08
    max_overlay_region_area := 0.04 }

/-- `MIN_TOTAL_CHARS` of `src/filter_no_text.py` (two-way variant). -/
def MIN_TOTAL_CHARS : ℕ := 3

/-- Fold of `min` over a list with a starting value (Python `min(xs)` on a
nonempty list `x :: l` is `foldMin x l`). -/
def foldMin (x : ℚ) (l : List ℚ) : ℚ := l.foldl min x

/-- Fold of `max` over a list with a starting value. -/
def foldMax (x : ℚ) (l : List ℚ) : ℚ := l.foldl max x

/-- `max_x - min_x` of a detection's region (`0` for an empty region; the
classifier raises before using this value in that case). -/
def bboxWidth (d : Detection) : ℚ :=
  match d.region with
  | [] => 0
  | p :: ps => foldMax p.1 (ps.map Prod.fst) - foldMin p.1 (ps.map Prod.fst)

/-- `max_y - min_y` of a detection's region. -/
def bboxHeight (d : Detection) : ℚ :=
  match d.region with
  | [] => 0
  | p :: ps => foldMax p.2 (ps.map Prod.snd) - foldMin p.2 (ps.map Prod.snd)

/-- `area = width * height` of the axis-aligned bounding box. -/
def bboxArea (d : Detection) : ℚ := bboxWidth d * bboxHeight d

/-- `len(text)` of one detection. -/
def detChars (d : Detection) : ℕ := d.text.length

/-- `total_chars = sum(len(text) for (_, text, _) in results)`. -/
def total_chars (results : List Detection) : ℕ := (results.map detChars).sum

/-- Accumulator of the aggregation loop of `classify_text_type`:
`total_text_area`, `max_region_area_ratio`, `max_region_width_ratio`. -/
structure Agg where
  tta : ℚ
  marf : ℚ
  mwrf : ℚ
deriving DecidableEq, Repr

/-- One iteration of the `for (bbox, text, conf) in results` loop of
`classify_text_type` (`A` is `img_area`, `W` is the image width `w`).
`min([])` on an empty region raises ValueError; `area / img_area` with
`img_area = 0` raises ZeroDivisionError. -/
def regionStep (A W : ℚ) (acc : Agg) (d : Detection) : Except PyErr Agg :=
  match d.region with
  | [] => .error .valueError
  | _ :: _ =>
    let width := bboxWidth d
    let area := bboxArea d
    if area ≤ 0 then .ok acc
    else if A = 0 then .error .zeroDivisionError
    else .ok { tta := acc.tta + area
               marf := max acc.marf (area / A)
               mwrf := max acc.mwrf (width / W) }

/-- The whole aggregation loop, iterating `regionStep` left to right. -/
def regionLoop (A W : ℚ) (acc : Agg) : List Detection → Except PyErr Agg
  | [] => .ok acc
  | d :: ds =>
    match regionStep A W acc d with
    | .error e => .error e
    | .ok acc' => regionLoop A W acc' ds

/-- `classify_text_type` of `src/data/filter_no_text.py`, as a function of
the OCR results and the image dimensions (`h, w = arr.shape[0], arr.shape[1]`;
the EXIF/RGB conversion and the OCR call itself are outside the embedding:
`results` is the value `reader.readtext` returned). -/
def classify_text_type (results : List Detection) (w h : ℕ) (T : Thresholds) :
    Except PyErr Verdict :=
  let A : ℚ := (w : ℚ) * (h : ℚ)
  if results = [] then .ok .none
  else if ((total_chars results : ℚ)) < T.min_total_chars then .ok .none
  else
    match regionLoop A (w : ℚ) ⟨0, 0, 0⟩ results with
    | .error e => .error e
    | .ok agg =>
      if A = 0 then .error .zeroDivisionError
      else
        let totalAreaFrac := agg.tta / A
        if T.meme_min_region_area ≤ agg.marf
            ∨ T.meme_min_width ≤ agg.mwrf
            ∨ T.meme_min_total_area ≤ totalAreaFrac
            ∨ T.meme_min_total_chars ≤ (total_chars results : ℚ) then
          .ok .meme
        else if totalAreaFrac ≤ T.max_overlay_total_area
            ∧ agg.marf ≤ T.max_overlay_region_area then
          .ok .overlay
        else .ok .meme

/-- `has_text_easyocr` of `src/filter_no_text.py`:
`total_chars >= MIN_TOTAL_CHARS`. -/
def has_text_easyocr (results : List Detection) : Bool :=
  MIN_TOTAL_CHARS ≤ total_chars results

/-- Equality of `Except` values is decidable when both components' is. -/
instance instDecEqExceptPV {ε α : Type} [DecidableEq ε] [DecidableEq α] :
    DecidableEq (Except ε α) := fun a b =>
  match a, b with
  | .error e, .error f =>
    if h : e = f then .isTrue (by rw [h]) else .isFalse (by simp [h])
  | .error _, .ok _ => .isFalse (by simp)
  | .ok _, .error _ => .isFalse (by simp)
  | .ok x, .ok y =>
    if h : x = y then .isTrue (by rw [h]) else .isFalse (by simp [h])

/-- The detections the loop of `classify_text_type` keeps for area
aggregation: those with a positive bounding-box area (`if area <= 0:
continue` skips the rest). -/
def keptDets (results : List Detection) : List Detection :=
  results.filter (fun d => decide (0 < bboxArea d))

/-- `total_text_area`: sum of bounding-box areas of non-degenerate regions. -/
def total_text_area (results : List Detection) : ℚ :=
  ((keptDets results).map bboxArea).sum

/-- The per-region `area_ratio` values (`area / img_area`), in order. -/
def areaFracs (A : ℚ) (results : List Detection) : List ℚ :=
  (keptDets results).map (fun d => bboxArea d / A)

/-- The per-region `width_ratio` values (`width / w`), in order. -/
def widthFracs (W : ℚ) (results : List Detection) : List ℚ :=
  (keptDets results).map (fun d => bboxWidth d / W)

/-- `max_region_area_ratio` (renamed, see header): running max starting
at `0.0`. -/
def max_region_area_frac (A : ℚ) (results : List Detection) : ℚ :=
  foldMax 0 (areaFracs A results)

/-- `max_region_width_ratio` (renamed, see header). -/
def max_region_width_frac (W : ℚ) (results : List Detection) : ℚ :=
  foldMax 0 (widthFracs W results)

/-- `total_area_ratio = total_text_area / img_area` (renamed, see header). -/
def total_area_frac (A : ℚ) (results : List Detection) : ℚ :=
  total_text_area results / A

/-- The disjunctive meme test of `classify_text_type` (lines 87-93). -/
def memeCond (T : Thresholds) (A W : ℚ) (results : List Detection) : Prop :=
  T.meme_min_region_area ≤ max_region_area_frac A results
  ∨ T.meme_min_width ≤ max_region_width_frac W results
  ∨ T.meme_min_total_area ≤ total_area_frac A results
  ∨ T.meme_min_total_chars ≤ (total_chars results : ℚ)

/-- The conjunctive overlay test of `classify_text_type` (lines 98-101). -/
def overlayCond (T : Thresholds) (A : ℚ) (results : List Detection) : Prop :=
  total_area_frac A results ≤ T.max_overlay_total_area
  ∧ max_region_area_frac A results ≤ T.max_overlay_region_area

instance (T : Thresholds) (A W : ℚ) (results : List Detection) :
    Decidable (memeCond T A W results) := by
  unfold memeCond; infer_instance

instance (T : Thresholds) (A : ℚ) (results : List Detection) :
    Decidable (overlayCond T A results) := by
  unfold overlayCond; infer_instance

/-- One source file as the triage driver `main` of
`src/data/filter_no_text.py` sees it: its name (`img_path.name`), its
bytes (abstracted to a number, what `shutil.copy2` copies), and the
deterministic outcome of `Image.open` + `classify_text_type` on it:
`Option.none` when `Image.open` raises, otherwise the verdict. -/
structure SrcFile where
  name : String
  content : ℕ
  load : Option Verdict
deriving DecidableEq, Repr

/-- The mutable state of one driver run: the contents of `DST_DIR` and
`REJECTED_DIR` as name-to-content association lists, plus the two
counters. -/
structure DriverState where
  dst : List (String × ℕ)
  rejected : List (String × ℕ)
  num_kept : ℕ
  num_rejected : ℕ
deriving DecidableEq, Repr

/-- `if not out_path.exists(): shutil.copy2(img_path, out_path)` —
copy into a directory only when no file of that name exists yet. -/
def copyIfAbsent (dir : List (String × ℕ)) (nm : String) (c : ℕ) :
    List (String × ℕ) :=
  match dir.lookup nm with
  | some _ => dir
  | Option.none => (nm, c) :: dir

/-- `text_type in ("none", "overlay")` — verdicts routed to `DST_DIR`. -/
def keepVerdict : Verdict → Bool
  | .none => true
  | .overlay => true
  | .meme => false

/-- The body of the driver loop for one file (lines 127-152 of
`src/data/filter_no_text.py`): on a load error, copy to `REJECTED_DIR`
and count rejected; on a kept verdict, copy to `DST_DIR` and count kept;
on `meme`, copy to `REJECTED_DIR` and count rejected. -/
def processFile (s : DriverState) (f : SrcFile) : DriverState :=
  match f.load with
  | Option.none =>
    { s with rejected := copyIfAbsent s.rejected f.name f.content,
             num_rejected := s.num_rejected + 1 }
  | some v =>
    if keepVerdict v then
      { s with dst := copyIfAbsent s.dst f.name f.content,
               num_kept := s.num_kept + 1 }
    else
      { s with rejected := copyIfAbsent s.rejected f.name f.content,
               num_rejected := s.num_rejected + 1 }

/-- The whole driver loop over the collected paths, in order. -/
def runDriver (s : DriverState) (files : List SrcFile) : DriverState :=
  files.foldl processFile s

/-- State at the start of a run: freshly created (or already existing)
directories and zeroed counters. -/
def emptyState : DriverState := ⟨[], [], 0, 0⟩

def isKeptFile (f : SrcFile) : Bool :=
  match f.load with
  | some v => keepVerdict v
  | Option.none => false

def rerun (files : List SrcFile) : DriverState :=
  runDriver ⟨(runDriver emptyState files).dst,
    (runDriver emptyState files).rejected, 0, 0⟩ files

def negThresholds : Thresholds := ⟨-1, -1, -1, -1, -1, -1, -1⟩

/-- A full-image square detection with 3 characters of text. -/
def dBig : Detection := ⟨[(0, 0), (10, 0), (10, 10), (0, 10)], "abc", 1⟩

/-- A one-percent square detection with 3 characters of text. -/
def dSmall : Detection := ⟨[(0, 0), (1, 0), (1, 1), (0, 1)], "abc", 1⟩

/-- A full-image square detection with a single character of text. -/
def dOne : Detection := ⟨[(0, 0), (10, 0), (10, 10), (0, 10)], "a", 1⟩

/-- A degenerate detection: four collinear points, bounding box of width
zero, two characters of text. -/
def dDeg : Detection := ⟨[(0, 0), (0, 1), (0, 2), (0, 3)], "xy", 1⟩

def dAlt : Detection := ⟨[(3, 4)], "abc", 0⟩

def d25 : Detection :=
  ⟨[(0, 0), (1, 0), (1, 1), (0, 1)], "abcdefghijklmnopqrstuvwxy", 1⟩

def fErr : SrcFile := ⟨"x", 7, Option.none⟩

def fMeme : SrcFile := ⟨"x", 7, some Verdict.meme⟩

theorem le_foldMax (x : ℚ) (l : List ℚ) : x ≤ foldMax x l := by
  induction l generalizing x with
  | nil => exact le_refl x
  | cons y ys ih => exact le_trans (le_max_left x y) (ih (max x y))

theorem foldMax_append (x : ℚ) (l1 l2 : List ℚ) :
    foldMax x (l1 ++ l2) = foldMax (foldMax x l1) l2 := by
  simp [foldMax, List.foldl_append]

theorem total_chars_append (l1 l2 : List Detection) :
    total_chars (l1 ++ l2) = total_chars l1 + total_chars l2 := by
  simp [total_chars]

theorem keptDets_append (l1 l2 : List Detection) :
    keptDets (l1 ++ l2) = keptDets l1 ++ keptDets l2 := by
  simp [keptDets]

theorem total_text_area_append (l1 l2 : List Detection) :
    total_text_area (l1 ++ l2) = total_text_area l1 + total_text_area l2 := by
  simp [total_text_area, keptDets_append]

theorem total_text_area_nonneg (l : List Detection) : 0 ≤ total_text_area l := by
  refine List.sum_nonneg ?_
  intro x hx
  rcases List.mem_map.mp hx with ⟨d, hd, rfl⟩
  have := List.of_mem_filter hd
  exact le_of_lt (of_decide_eq_true this)

theorem regionLoop_eq (A W : ℚ) (hA : A ≠ 0) (results : List Detection) :
    ∀ acc : Agg, (∀ d ∈ results, d.region ≠ []) →
      regionLoop A W acc results =
        .ok ⟨acc.tta + total_text_area results,
             foldMax acc.marf (areaFracs A results),
             foldMax acc.mwrf (widthFracs W results)⟩ := by
  induction results with
  | nil =>
    intro acc _
    cases acc
    simp [regionLoop, total_text_area, keptDets, areaFracs, widthFracs, foldMax]
  | cons d ds ih =>
    intro acc hreg
    have hd : d.region ≠ [] := hreg d (by simp)
    have hreg' : ∀ e ∈ ds, e.region ≠ [] := fun e he => hreg e (by simp [he])
    by_cases harea : bboxArea d ≤ 0
    · have hkept : (decide (0 < bboxArea d)) = false := by
        simp [not_lt.mpr harea]
      have hstep : regionStep A W acc d = .ok acc := by
        rcases hr : d.region with _ | ⟨p, ps⟩
        · exact absurd hr hd
        · simp [regionStep, hr, harea]
      have hloop : regionLoop A W acc (d :: ds) = regionLoop A W acc ds := by
        simp [regionLoop, hstep]
      rw [hloop, ih acc hreg']
      simp [total_text_area, keptDets, areaFracs, widthFracs, List.filter_cons, hkept]
    · have hpos : 0 < bboxArea d := lt_of_not_le harea
      have hkept : (decide (0 < bboxArea d)) = true := by simp [hpos]
      have hstep : regionStep A W acc d =
          .ok ⟨acc.tta + bboxArea d, max acc.marf (bboxArea d / A),
               max acc.mwrf (bboxWidth d / W)⟩ := by
        rcases hr : d.region with _ | ⟨p, ps⟩
        · exact absurd hr hd
        · simp [regionStep, hr, harea, hA]
      have hloop : regionLoop A W acc (d :: ds) =
          regionLoop A W ⟨acc.tta + bboxArea d, max acc.marf (bboxArea d / A),
            max acc.mwrf (bboxWidth d / W)⟩ ds := by
        simp [regionLoop, hstep]
      rw [hloop, ih _ hreg']
      simp [total_text_area, keptDets, areaFracs, widthFracs, List.filter_cons,
        hkept, foldMax, add_assoc]

theorem classify_eval (results : List Detection) (w h : ℕ) (T : Thresholds)
    (hne : results ≠ []) (hreg : ∀ d ∈ results, d.region ≠ [])
    (hA : ((w : ℚ) * (h : ℚ)) ≠ 0) :
    classify_text_type results w h T =
      .ok (if (total_chars results : ℚ) < T.min_total_chars then Verdict.none
        else if memeCond T ((w : ℚ) * (h : ℚ)) (w : ℚ) results then Verdict.meme
        else if overlayCond T ((w : ℚ) * (h : ℚ)) results then Verdict.overlay
        else Verdict.meme) := by
  unfold classify_text_type
  rw [if_neg hne]
  by_cases htc : (total_chars results : ℚ) < T.min_total_chars
  · rw [if_pos htc, if_pos htc]
  · rw [if_neg htc, if_neg htc]
    rw [regionLoop_eq _ _ hA results ⟨0, 0, 0⟩ hreg]
    simp only [if_neg hA]
    simp only [memeCond, overlayCond, max_region_area_frac, max_region_width_frac,
      total_area_frac, zero_add]
    split_ifs <;> rfl

theorem classify_nil (w h : ℕ) (T : Thresholds) :
    classify_text_type [] w h T = .ok .none := by
  simp [classify_text_type]

theorem classify_lowchars (results : List Detection) (w h : ℕ) (T : Thresholds)
    (htc : (total_chars results : ℚ) < T.min_total_chars) :
    classify_text_type results w h T = .ok .none := by
  unfold classify_text_type
  by_cases hne : results = []
  · rw [if_pos hne]
  · rw [if_neg hne, if_pos htc]

theorem regionLoop_ok_regions (A W : ℚ) (l : List Detection) :
    ∀ (acc : Agg) (agg : Agg), regionLoop A W acc l = .ok agg →
      ∀ d ∈ l, d.region ≠ [] := by
  induction l with
  | nil => intro _ _ _ d hd; exact absurd hd (List.not_mem_nil d)
  | cons e es ih =>
    intro acc agg hloop d hd
    rcases hr : e.region with _ | ⟨p, ps⟩
    · have hstep : regionStep A W acc e = .error .valueError := by
        simp [regionStep, hr]
      rw [regionLoop, hstep] at hloop
      exact absurd hloop (by simp)
    · rcases List.mem_cons.mp hd with rfl | hd'
      · simp [hr]
      · have hstep : ∃ acc', regionStep A W acc e = .ok acc' := by
          by_cases harea : bboxArea e ≤ 0
          · exact ⟨acc, by simp [regionStep, hr, harea]⟩
          · by_cases hA : A = 0
            · exfalso
              have hstep' : regionStep A W acc e = .error .zeroDivisionError := by
                simp [regionStep, hr, harea, hA]
              rw [regionLoop, hstep'] at hloop
              exact absurd hloop (by simp)
            · exact ⟨⟨acc.tta + bboxArea e, max acc.marf (bboxArea e / A),
                max acc.mwrf (bboxWidth e / W)⟩, by simp [regionStep, hr, harea, hA]⟩
        rcases hstep with ⟨acc', hstep⟩
        rw [regionLoop, hstep] at hloop
        exact ih acc' agg hloop d hd'

theorem regionLoop_zeroA (W : ℚ) (l : List Detection)
    (hreg : ∀ d ∈ l, d.region ≠ []) :
    ∀ acc : Agg, regionLoop 0 W acc l = .ok acc
      ∨ regionLoop 0 W acc l = .error .zeroDivisionError := by
  induction l with
  | nil => intro acc; left; rfl
  | cons d ds ih =>
    intro acc
    have hd : d.region ≠ [] := hreg d (by simp)
    have hreg' : ∀ e ∈ ds, e.region ≠ [] := fun e he => hreg e (by simp [he])
    rcases hr : d.region with _ | ⟨p, ps⟩
    · exact absurd hr hd
    · by_cases harea : bboxArea d ≤ 0
      · have hstep : regionStep 0 W acc d = .ok acc := by
          simp [regionStep, hr, harea]
        rw [regionLoop, hstep]
        exact ih hreg' acc
      · have hstep : regionStep 0 W acc d = .error .zeroDivisionError := by
          simp [regionStep, hr, harea]
        rw [regionLoop, hstep]
        right; rfl

theorem classify_zero_area (results : List Detection) (w h : ℕ) (T : Thresholds)
    (hne : results ≠ []) (hreg : ∀ d ∈ results, d.region ≠ [])
    (htc : ¬ ((total_chars results : ℚ) < T.min_total_chars))
    (hA : ((w : ℚ) * (h : ℚ)) = 0) :
    classify_text_type results w h T = .error .zeroDivisionError := by
  unfold classify_text_type
  rw [if_neg hne, if_neg htc, hA]
  rcases regionLoop_zeroA ((w : ℚ)) results hreg ⟨0, 0, 0⟩ with hok | herr
  · rw [hok]; simp
  · rw [herr]

theorem classify_no_error (results : List Detection) (w h : ℕ) (T : Thresholds)
    (hreg : ∀ d ∈ results, d.region ≠ [])
    (hA : ((w : ℚ) * (h : ℚ)) ≠ 0) :
    ∃ v, classify_text_type results w h T = .ok v := by
  by_cases hne : results = []
  · exact ⟨.none, hne ▸ classify_nil w h T⟩
  · exact ⟨_, classify_eval results w h T hne hreg hA⟩

theorem classify_meme_extract (results : List Detection) (w h : ℕ) (T : Thresholds)
    (hm : classify_text_type results w h T = .ok .meme) :
    results ≠ [] ∧ (∀ d ∈ results, d.region ≠ []) ∧
      ¬ ((total_chars results : ℚ) < T.min_total_chars) := by
  have hne : results ≠ [] := by
    intro hnil
    rw [hnil, classify_nil] at hm
    exact absurd hm (by simp)
  have htc : ¬ ((total_chars results : ℚ) < T.min_total_chars) := by
    intro htc
    rw [classify_lowchars results w h T htc] at hm
    exact absurd hm (by simp)
  refine ⟨hne, ?_, htc⟩
  unfold classify_text_type at hm
  rw [if_neg hne, if_neg htc] at hm
  cases hloop : regionLoop ((w : ℚ) * (h : ℚ)) ((w : ℚ)) ⟨0, 0, 0⟩ results with
  | error e => rw [hloop] at hm; exact absurd hm (by simp)
  | ok agg => exact regionLoop_ok_regions _ _ results _ agg hloop

theorem max_region_area_frac_mono (A : ℚ) (l : List Detection) (d : Detection) :
    max_region_area_frac A l ≤ max_region_area_frac A (l ++ [d]) := by
  unfold max_region_area_frac areaFracs
  rw [keptDets_append, List.map_append, foldMax_append]
  exact le_foldMax _ _

theorem max_region_width_frac_mono (W : ℚ) (l : List Detection) (d : Detection) :
    max_region_width_frac W l ≤ max_region_width_frac W (l ++ [d]) := by
  unfold max_region_width_frac widthFracs
  rw [keptDets_append, List.map_append, foldMax_append]
  exact le_foldMax _ _

theorem total_area_frac_mono (A : ℚ) (hA : 0 < A) (l : List Detection)
    (d : Detection) : total_area_frac A l ≤ total_area_frac A (l ++ [d]) := by
  unfold total_area_frac
  rw [total_text_area_append]
  exact (div_le_div_iff_of_pos_right hA).mpr (le_add_of_nonneg_right (total_text_area_nonneg [d]))

theorem total_chars_mono (l : List Detection) (d : Detection) :
    ((total_chars l : ℚ)) ≤ ((total_chars (l ++ [d]) : ℚ)) := by
  rw [total_chars_append]
  exact_mod_cast Nat.le_add_right _ _

theorem classify_meme_mono (T : Thresholds) (l : List Detection) (d : Detection)
    (w h : ℕ) (hw : 0 < w) (hh : 0 < h) (hd : d.region ≠ [])
    (hm : classify_text_type l w h T = .ok .meme) :
    classify_text_type (l ++ [d]) w h T = .ok .meme := by
  obtain ⟨hne, hreg, htc⟩ := classify_meme_extract l w h T hm
  have hApos : (0 : ℚ) < (w : ℚ) * (h : ℚ) :=
    mul_pos (by exact_mod_cast hw) (by exact_mod_cast hh)
  have hA : ((w : ℚ) * (h : ℚ)) ≠ 0 := ne_of_gt hApos
  rw [classify_eval l w h T hne hreg hA, if_neg htc] at hm
  have hkey : memeCond T ((w : ℚ) * (h : ℚ)) (w : ℚ) l
      ∨ ¬ overlayCond T ((w : ℚ) * (h : ℚ)) l := by
    by_cases h1 : memeCond T ((w : ℚ) * (h : ℚ)) (w : ℚ) l
    · exact Or.inl h1
    · refine Or.inr fun h2 => ?_
      rw [if_neg h1, if_pos h2] at hm
      exact absurd hm (by simp)
  have hne' : l ++ [d] ≠ [] := by simp
  have hreg' : ∀ e ∈ l ++ [d], e.region ≠ [] := by
    intro e he
    rcases List.mem_append.mp he with h1 | h1
    · exact hreg e h1
    · rw [List.mem_singleton] at h1; subst h1; exact hd
  have htc' : ¬ ((total_chars (l ++ [d]) : ℚ) < T.min_total_chars) :=
    fun hlt => htc (lt_of_le_of_lt (total_chars_mono l d) hlt)
  rw [classify_eval _ w h T hne' hreg' hA, if_neg htc']
  rcases hkey with hmeme | hnov
  · have hmeme' : memeCond T ((w : ℚ) * (h : ℚ)) (w : ℚ) (l ++ [d]) := by
      unfold memeCond at hmeme ⊢
      rcases hmeme with h1 | h2 | h3 | h4
      · exact Or.inl (le_trans h1 (max_region_area_frac_mono _ l d))
      · exact Or.inr (Or.inl (le_trans h2 (max_region_width_frac_mono _ l d)))
      · exact Or.inr (Or.inr (Or.inl
          (le_trans h3 (total_area_frac_mono _ hApos l d))))
      · exact Or.inr (Or.inr (Or.inr (le_trans h4 (total_chars_mono l d))))
    rw [if_pos hmeme']
  · by_cases hm2 : memeCond T ((w : ℚ) * (h : ℚ)) (w : ℚ) (l ++ [d])
    · rw [if_pos hm2]
    · have hnov' : ¬ overlayCond T ((w : ℚ) * (h : ℚ)) (l ++ [d]) := by
        unfold overlayCond at hnov ⊢
        intro h2
        exact hnov ⟨le_trans (total_area_frac_mono _ hApos l d) h2.1,
          le_trans (max_region_area_frac_mono _ l d) h2.2⟩
      rw [if_neg hm2, if_neg hnov']

theorem regionLoop_append (A W : ℚ) (l1 l2 : List Detection) : ∀ acc : Agg,
    regionLoop A W acc (l1 ++ l2) =
      match regionLoop A W acc l1 with
      | .error e => .error e
      | .ok acc' => regionLoop A W acc' l2 := by
  induction l1 with
  | nil => intro acc; rfl
  | cons d ds ih =>
    intro acc
    show (match regionStep A W acc d with
      | Except.error e => Except.error e
      | Except.ok acc' => regionLoop A W acc' (ds ++ l2)) = _
    cases hstep : regionStep A W acc d with
    | error e => simp [regionLoop, hstep]
    | ok acc' =>
      dsimp only
      rw [ih acc']
      have heq : regionLoop A W acc (d :: ds) = regionLoop A W acc' ds := by
        rw [regionLoop, hstep]
      rw [heq]

theorem runDriver_nil (s : DriverState) : runDriver s [] = s := rfl

theorem runDriver_cons (s : DriverState) (f : SrcFile) (fs : List SrcFile) :
    runDriver s (f :: fs) = runDriver (processFile s f) fs := rfl

theorem runDriver_append (s : DriverState) (l1 l2 : List SrcFile) :
    runDriver s (l1 ++ l2) = runDriver (runDriver s l1) l2 := by
  simp [runDriver, List.foldl_append]

theorem processFile_num_kept (s : DriverState) (f : SrcFile) :
    (processFile s f).num_kept = s.num_kept + (if isKeptFile f then 1 else 0) := by
  unfold processFile isKeptFile
  cases f.load with
  | none => simp
  | some v => cases hv : keepVerdict v <;> simp [hv]

theorem processFile_num_rejected (s : DriverState) (f : SrcFile) :
    (processFile s f).num_rejected = s.num_rejected + (if isKeptFile f then 0 else 1) := by
  unfold processFile isKeptFile
  cases f.load with
  | none => simp
  | some v => cases hv : keepVerdict v <;> simp [hv]

theorem runDriver_num_kept (files : List SrcFile) : ∀ s : DriverState,
    (runDriver s files).num_kept = s.num_kept + (files.filter isKeptFile).length := by
  induction files with
  | nil => intro s; simp [runDriver_nil]
  | cons f fs ih =>
    intro s
    rw [runDriver_cons, ih, processFile_num_kept, List.filter_cons]
    cases hf : isKeptFile f <;> simp [hf] <;> omega

theorem runDriver_num_rejected (files : List SrcFile) : ∀ s : DriverState,
    (runDriver s files).num_rejected =
      s.num_rejected + (files.filter (fun f => !isKeptFile f)).length := by
  induction files with
  | nil => intro s; simp [runDriver_nil]
  | cons f fs ih =>
    intro s
    rw [runDriver_cons, ih, processFile_num_rejected, List.filter_cons]
    cases hf : isKeptFile f <;> simp [hf] <;> omega

theorem runDriver_total (files : List SrcFile) (s : DriverState) :
    (runDriver s files).num_kept + (runDriver s files).num_rejected =
      s.num_kept + s.num_rejected + files.length := by
  rw [runDriver_num_kept, runDriver_num_rejected]
  have := files.length_eq_length_filter_add isKeptFile
  omega

theorem lookup_copyIfAbsent (dir : List (String × ℕ)) (nm n : String) (c cc : ℕ)
    (h : dir.lookup n = some cc) : (copyIfAbsent dir nm c).lookup n = some cc := by
  unfold copyIfAbsent
  cases hl : dir.lookup nm with
  | some v => exact h
  | none =>
    have hne : (n == nm) = false := by
      refine beq_eq_false_iff_ne.mpr ?_
      intro heq
      rw [heq, hl] at h
      exact absurd h (by simp)
    simp [List.lookup, hne]
    exact h

theorem copyIfAbsent_self (dir : List (String × ℕ)) (nm : String) (c : ℕ) :
    ((copyIfAbsent dir nm c).lookup nm).isSome = true := by
  unfold copyIfAbsent
  cases hl : dir.lookup nm with
  | some v => simp [hl]
  | none => simp [List.lookup]

theorem copyIfAbsent_of_present (dir : List (String × ℕ)) (nm : String) (c : ℕ)
    (h : (dir.lookup nm).isSome = true) : copyIfAbsent dir nm c = dir := by
  unfold copyIfAbsent
  cases hl : dir.lookup nm with
  | some v => rfl
  | none => rw [hl] at h; exact absurd h (by simp)

theorem processFile_dst_lookup (s : DriverState) (f : SrcFile) (n : String) (c : ℕ)
    (h : s.dst.lookup n = some c) : (processFile s f).dst.lookup n = some c := by
  unfold processFile
  cases f.load with
  | none => exact h
  | some v =>
    cases hv : keepVerdict v
    · simp [hv]; exact h
    · simp [hv]; exact lookup_copyIfAbsent _ _ _ _ _ h

theorem processFile_rejected_lookup (s : DriverState) (f : SrcFile) (n : String) (c : ℕ)
    (h : s.rejected.lookup n = some c) : (processFile s f).rejected.lookup n = some c := by
  unfold processFile
  cases f.load with
  | none => exact lookup_copyIfAbsent _ _ _ _ _ h
  | some v =>
    cases hv : keepVerdict v
    · simp [hv]; exact lookup_copyIfAbsent _ _ _ _ _ h
    · simp [hv]; exact h

theorem runDriver_dst_lookup (files : List SrcFile) : ∀ (s : DriverState)
    (n : String) (c : ℕ), s.dst.lookup n = some c →
      (runDriver s files).dst.lookup n = some c := by
  induction files with
  | nil => intro s n c h; exact h
  | cons f fs ih =>
    intro s n c h
    rw [runDriver_cons]
    exact ih _ n c (processFile_dst_lookup s f n c h)

theorem runDriver_rejected_lookup (files : List SrcFile) : ∀ (s : DriverState)
    (n : String) (c : ℕ), s.rejected.lookup n = some c →
      (runDriver s files).rejected.lookup n = some c := by
  induction files with
  | nil => intro s n c h; exact h
  | cons f fs ih =>
    intro s n c h
    rw [runDriver_cons]
    exact ih _ n c (processFile_rejected_lookup s f n c h)

theorem runDriver_dst_isSome (files : List SrcFile) (s : DriverState) (n : String)
    (h : (s.dst.lookup n).isSome = true) :
    ((runDriver s files).dst.lookup n).isSome = true := by
  rcases Option.isSome_iff_exists.mp h with ⟨c, hc⟩
  exact Option.isSome_iff_exists.mpr ⟨c, runDriver_dst_lookup files s n c hc⟩

theorem runDriver_rejected_isSome (files : List SrcFile) (s : DriverState) (n : String)
    (h : (s.rejected.lookup n).isSome = true) :
    ((runDriver s files).rejected.lookup n).isSome = true := by
  rcases Option.isSome_iff_exists.mp h with ⟨c, hc⟩
  exact Option.isSome_iff_exists.mpr ⟨c, runDriver_rejected_lookup files s n c hc⟩

theorem processFile_covers (s : DriverState) (f : SrcFile) :
    (isKeptFile f = true → ((processFile s f).dst.lookup f.name).isSome = true)
    ∧ (isKeptFile f = false →
        ((processFile s f).rejected.lookup f.name).isSome = true) := by
  constructor
  · intro h
    unfold processFile
    cases hl : f.load with
    | none => simp [isKeptFile, hl] at h
    | some v =>
      have hv : keepVerdict v = true := by simpa [isKeptFile, hl] using h
      dsimp only
      rw [if_pos hv]
      exact copyIfAbsent_self _ _ _
  · intro h
    unfold processFile
    cases hl : f.load with
    | none => exact copyIfAbsent_self _ _ _
    | some v =>
      have hv : keepVerdict v = false := by simpa [isKeptFile, hl] using h
      dsimp only
      rw [if_neg (by simp [hv])]
      exact copyIfAbsent_self _ _ _

theorem runDriver_covers (files : List SrcFile) : ∀ (s : DriverState),
    ∀ f ∈ files,
      (isKeptFile f = true → ((runDriver s files).dst.lookup f.name).isSome = true)
      ∧ (isKeptFile f = false →
          ((runDriver s files).rejected.lookup f.name).isSome = true) := by
  induction files with
  | nil => intro s f hf; exact absurd hf (List.not_mem_nil f)
  | cons g gs ih =>
    intro s f hf
    rw [runDriver_cons]
    rcases List.mem_cons.mp hf with rfl | hf'
    · exact ⟨fun h => runDriver_dst_isSome gs _ _ ((processFile_covers s f).1 h),
        fun h => runDriver_rejected_isSome gs _ _ ((processFile_covers s f).2 h)⟩
    · exact ih _ f hf'

theorem processFile_stable (s : DriverState) (f : SrcFile)
    (hk : isKeptFile f = true → ((s.dst.lookup f.name)).isSome = true)
    (hr : isKeptFile f = false → ((s.rejected.lookup f.name)).isSome = true) :
    (processFile s f).dst = s.dst ∧ (processFile s f).rejected = s.rejected := by
  unfold processFile
  cases hl : f.load with
  | none =>
    have := hr (by simp [isKeptFile, hl])
    exact ⟨rfl, copyIfAbsent_of_present _ _ _ this⟩
  | some v =>
    cases hv : keepVerdict v
    · have := hr (by simp [isKeptFile, hl, hv])
      dsimp only
      rw [if_neg (by simp [hv])]
      exact ⟨rfl, copyIfAbsent_of_present _ _ _ this⟩
    · have := hk (by simp [isKeptFile, hl, hv])
      dsimp only
      rw [if_pos hv]
      exact ⟨copyIfAbsent_of_present _ _ _ this, rfl⟩

theorem runDriver_stable (files : List SrcFile) : ∀ (s : DriverState),
    (∀ f ∈ files,
      (isKeptFile f = true → ((s.dst.lookup f.name)).isSome = true)
      ∧ (isKeptFile f = false → ((s.rejected.lookup f.name)).isSome = true)) →
    (runDriver s files).dst = s.dst ∧ (runDriver s files).rejected = s.rejected := by
  induction files with
  | nil => intro s _; exact ⟨rfl, rfl⟩
  | cons f fs ih =>
    intro s hcov
    have hf := hcov f (by simp)
    have hst := processFile_stable s f hf.1 hf.2
    rw [runDriver_cons]
    have hcov' : ∀ g ∈ fs,
        (isKeptFile g = true →
          (((processFile s f).dst.lookup g.name)).isSome = true)
        ∧ (isKeptFile g = false →
          (((processFile s f).rejected.lookup g.name)).isSome = true) := by
      intro g hg
      have := hcov g (by simp [hg])
      rw [hst.1, hst.2]
      exact this
    have := ih (processFile s f) hcov'
    rw [this.1, this.2, hst.1, hst.2]
    exact ⟨rfl, rfl⟩

/-- C1, counterexample: the claim fails as stated.  A single detection
whose bounding box covers the whole 10x10 image (100 percent, far above the
0.10 floor) but carries only 1 character of text is classified `none`, not
`meme`: the `total_chars < MIN_TOTAL_CHARS` floor at lines 55-57 of
`src/data/filter_no_text.py` fires before the meme test. -/
theorem claim1_counterexample :
    classify_text_type [dOne] 10 10 defaultThresholds = .ok Verdict.none
    ∧ classify_text_type [dOne] 10 10 defaultThresholds ≠ .ok Verdict.meme := by
  have h : classify_text_type [dOne] 10 10 defaultThresholds
      = .ok Verdict.none := by
    norm_num [classify_text_type, total_chars, detChars, dOne, String.length,
      defaultThresholds]
  exact ⟨h, by rw [h]; simp⟩

/-- C1, amended: with default thresholds, a single detection whose bounding
box covers at least `meme_min_region_area_ratio` (0.10) of the image area
yields `meme`, provided its text length is at least `min_total_chars` (3);
with `total_chars` as low as 1 the char-count floor returns `none` first. -/
theorem claim1_amended_meme_dominance (d : Detection) (w h : ℕ)
    (hw : 0 < w) (hh : 0 < h) (hreg : d.region ≠ [])
    (htc : defaultThresholds.min_total_chars ≤ (total_chars [d] : ℚ))
    (harea : defaultThresholds.meme_min_region_area * ((w : ℚ) * (h : ℚ))
      ≤ bboxArea d) :
    classify_text_type [d] w h defaultThresholds = .ok .meme := by
  have hApos : (0 : ℚ) < (w : ℚ) * (h : ℚ) :=
    mul_pos (by exact_mod_cast hw) (by exact_mod_cast hh)
  have hA : ((w : ℚ) * (h : ℚ)) ≠ 0 := ne_of_gt hApos
  have hpos : 0 < bboxArea d := by
    refine lt_of_lt_of_le ?_ harea
    have : (0 : ℚ) < defaultThresholds.meme_min_region_area := by
      norm_num [defaultThresholds]
    exact mul_pos this hApos
  have hk : keptDets [d] = [d] := by simp [keptDets, List.filter, hpos]
  have hfrac : defaultThresholds.meme_min_region_area
      ≤ max_region_area_frac ((w : ℚ) * (h : ℚ)) [d] := by
    unfold max_region_area_frac areaFracs
    rw [hk]
    simp only [List.map_cons, List.map_nil, foldMax, List.foldl_cons,
      List.foldl_nil]
    refine le_trans ?_ (le_max_right 0 _)
    rw [le_div_iff₀ hApos]
    exact harea
  have hmeme : memeCond defaultThresholds ((w : ℚ) * (h : ℚ)) ((w : ℚ)) [d] := by
    unfold memeCond
    exact Or.inl hfrac
  have hreg' : ∀ e ∈ [d], e.region ≠ [] := by
    intro e he
    rw [List.mem_singleton] at he
    subst he
    exact hreg
  rw [classify_eval [d] w h defaultThresholds (by simp) hreg' hA,
    if_neg (not_lt.mpr htc), if_pos hmeme]

/-- C1, witness: the amended theorem applied to a full-image 3-character
detection on a 10x10 image. -/
theorem claim1_witness :
    classify_text_type [dBig] 10 10 defaultThresholds = .ok .meme :=
  claim1_amended_meme_dominance dBig 10 10 (by decide) (by decide)
    (by simp [dBig])
    (by norm_num [defaultThresholds, total_chars, detChars, dBig, String.length])
    (by norm_num [defaultThresholds, bboxArea, bboxWidth, bboxHeight,
      foldMax, foldMin, dBig])

/-- C2: for every image with positive width and height and every threshold
configuration, an empty detection list, or a combined text length below
`min_total_chars`, yields the verdict `none` regardless of geometry. -/
theorem claim2_none_floor (results : List Detection) (w h : ℕ) (T : Thresholds)
    (hw : 0 < w) (hh : 0 < h)
    (hcase : results = [] ∨ (total_chars results : ℚ) < T.min_total_chars) :
    classify_text_type results w h T = .ok .none := by
  rcases hcase with rfl | htc
  · exact classify_nil w h T
  · exact classify_lowchars results w h T htc

/-- C2, witness: the empty detection list on a 10x10 image. -/
theorem claim2_witness :
    classify_text_type [] 10 10 defaultThresholds = .ok .none :=
  claim2_none_floor [] 10 10 defaultThresholds (by decide) (by decide) (Or.inl rfl)

/-- C3: for every non-empty detection list past the char floor, if any of
the four meme conditions holds (largest-region area ratio, largest-region
width ratio, total area ratio, or total chars at their thresholds), the
verdict is `meme` — with no further hypothesis on the overlay test, so a
list satisfying both tests' ranges is `meme`, not `overlay`. -/
theorem claim3_meme_precedence (results : List Detection) (w h : ℕ)
    (T : Thresholds) (hw : 0 < w) (hh : 0 < h) (hne : results ≠ [])
    (hreg : ∀ d ∈ results, d.region ≠ [])
    (htc : T.min_total_chars ≤ (total_chars results : ℚ))
    (hmeme : memeCond T ((w : ℚ) * (h : ℚ)) (w : ℚ) results) :
    classify_text_type results w h T = .ok .meme := by
  have hA : ((w : ℚ) * (h : ℚ)) ≠ 0 :=
    ne_of_gt (mul_pos (by exact_mod_cast hw) (by exact_mod_cast hh))
  rw [classify_eval results w h T hne hreg hA, if_neg (not_lt.mpr htc),
    if_pos hmeme]

/-- C3, witness: a small 25-character detection (meme via the
`meme_min_total_chars` disjunct, overlay ranges also satisfied). -/
theorem claim3_witness :
    classify_text_type [d25] 10 10 defaultThresholds = .ok .meme :=
  claim3_meme_precedence [d25] 10 10 defaultThresholds (by decide) (by decide)
    (by simp) (by simp [d25])
    (by norm_num [defaultThresholds, total_chars, detChars, d25, String.length])
    (by
      unfold memeCond
      refine Or.inr (Or.inr (Or.inr ?_))
      norm_num [defaultThresholds, total_chars, detChars, d25, String.length])

/-- C4: for every non-empty detection list past the char floor for which no
meme condition holds, the verdict is `overlay` iff the total area ratio and
the largest-region area ratio are both within the overlay ceilings, and
`meme` otherwise — never `none`. -/
theorem claim4_overlay_iff (results : List Detection) (w h : ℕ) (T : Thresholds)
    (hw : 0 < w) (hh : 0 < h) (hne : results ≠ [])
    (hreg : ∀ d ∈ results, d.region ≠ [])
    (htc : T.min_total_chars ≤ (total_chars results : ℚ))
    (hnm : ¬ memeCond T ((w : ℚ) * (h : ℚ)) (w : ℚ) results) :
    classify_text_type results w h T =
      .ok (if overlayCond T ((w : ℚ) * (h : ℚ)) results then .overlay
        else .meme) := by
  have hA : ((w : ℚ) * (h : ℚ)) ≠ 0 :=
    ne_of_gt (mul_pos (by exact_mod_cast hw) (by exact_mod_cast hh))
  rw [classify_eval results w h T hne hreg hA, if_neg (not_lt.mpr htc),
    if_neg hnm]

/-- C4, witness: a one-percent detection on a 10x10 image is `overlay`. -/
theorem claim4_witness :
    classify_text_type [dSmall] 10 10 defaultThresholds = .ok .overlay := by
  have h := claim4_overlay_iff [dSmall] 10 10 defaultThresholds (by decide)
    (by decide) (by simp) (by simp [dSmall])
    (by norm_num [defaultThresholds, total_chars, detChars, dSmall, String.length])
    (by
      unfold memeCond
      push_neg
      norm_num [defaultThresholds, total_chars, detChars, dSmall, String.length,
        max_region_area_frac, max_region_width_frac, total_area_frac,
        total_text_area, areaFracs, widthFracs, keptDets, List.filter,
        bboxArea, bboxWidth, bboxHeight, foldMax, foldMin])
  rw [h, if_pos (by
    unfold overlayCond
    norm_num [defaultThresholds, max_region_area_frac, total_area_frac,
      total_text_area, areaFracs, widthFracs, keptDets, List.filter,
      bboxArea, bboxWidth, bboxHeight, foldMax, foldMin, dSmall])]

/-- C5: a detection with non-positive bounding-box area is skipped by the
aggregation loop (removing it does not change the loop's result, so it
contributes nothing to `total_text_area`, `max_region_area_ratio` or
`max_region_width_ratio`), its text length still counts in `total_chars`,
and classification completes without an error. -/
theorem claim5_degenerate_excluded (A W : ℚ) (acc : Agg)
    (l1 l2 : List Detection) (d : Detection) (w h : ℕ) (T : Thresholds)
    (hreg : d.region ≠ []) (hdeg : bboxArea d ≤ 0)
    (hw : 0 < w) (hh : 0 < h) (hall : ∀ e ∈ l1 ++ l2, e.region ≠ []) :
    regionLoop A W acc (l1 ++ d :: l2) = regionLoop A W acc (l1 ++ l2)
    ∧ total_chars (l1 ++ d :: l2) = total_chars (l1 ++ l2) + d.text.length
    ∧ ∃ v, classify_text_type (l1 ++ d :: l2) w h T = .ok v := by
  refine ⟨?_, ?_, ?_⟩
  · rw [regionLoop_append, regionLoop_append]
    cases h1 : regionLoop A W acc l1 with
    | error e => rfl
    | ok acc1 =>
      have hstep : regionStep A W acc1 d = .ok acc1 := by
        rcases hr : d.region with _ | ⟨p, ps⟩
        · exact absurd hr hreg
        · simp [regionStep, hr, hdeg]
      show regionLoop A W acc1 (d :: l2) = regionLoop A W acc1 l2
      rw [regionLoop, hstep]
  · simp [total_chars, detChars]
    omega
  · have hA : ((w : ℚ) * (h : ℚ)) ≠ 0 :=
      ne_of_gt (mul_pos (by exact_mod_cast hw) (by exact_mod_cast hh))
    have hall' : ∀ e ∈ l1 ++ d :: l2, e.region ≠ [] := by
      intro e he
      rcases List.mem_append.mp he with h1 | h1
      · exact hall e (List.mem_append.mpr (Or.inl h1))
      · rcases List.mem_cons.mp h1 with rfl | h2
        · exact hreg
        · exact hall e (List.mem_append.mpr (Or.inr h2))
    exact classify_no_error _ w h T hall' hA

/-- C5, witness: a four-collinear-point detection with 2 characters of
text, alongside a normal small detection, on a 10x10 image. -/
theorem claim5_witness :
    regionLoop 100 10 ⟨0, 0, 0⟩ ([] ++ dDeg :: [dSmall])
      = regionLoop 100 10 ⟨0, 0, 0⟩ ([] ++ [dSmall])
    ∧ total_chars ([] ++ dDeg :: [dSmall])
      = total_chars ([] ++ [dSmall]) + dDeg.text.length
    ∧ ∃ v, classify_text_type ([] ++ dDeg :: [dSmall]) 10 10 defaultThresholds
      = .ok v :=
  claim5_degenerate_excluded 100 10 ⟨0, 0, 0⟩ [] [dSmall] dDeg 10 10
    defaultThresholds (by simp [dDeg])
    (by norm_num [bboxArea, bboxWidth, bboxHeight, foldMax, foldMin, dDeg])
    (by decide) (by decide) (by simp [dSmall])

/-- C6, counterexample: the claim fails as stated.  With all-negative
thresholds and a zero-dimension image, the classifier does not fail fast:
it returns the verdict `none` (no validation exists in the code). -/
theorem claim6_counterexample :
    classify_text_type [] 0 0 negThresholds = .ok Verdict.none :=
  classify_nil 0 0 negThresholds

/-- C6, amended: the classifier performs no validation of thresholds or
image dimensions.  A zero-area image raises ZeroDivisionError only when the
ratio computation is reached (non-empty detections past the char floor);
with empty detections or below the floor it returns `none`, and negative
thresholds are accepted silently. -/
theorem claim6_amended_no_validation (results : List Detection) (w h : ℕ)
    (T : Thresholds) (hne : results ≠ [])
    (hreg : ∀ d ∈ results, d.region ≠ [])
    (htc : T.min_total_chars ≤ (total_chars results : ℚ))
    (hA : ((w : ℚ) * (h : ℚ)) = 0) :
    classify_text_type results w h T = .error .zeroDivisionError :=
  classify_zero_area results w h T hne hreg (not_lt.mpr htc) hA

/-- C6, witness: a zero-width image with one full detection raises
ZeroDivisionError. -/
theorem claim6_witness :
    classify_text_type [dBig] 0 10 defaultThresholds
      = .error .zeroDivisionError :=
  claim6_amended_no_validation [dBig] 0 10 defaultThresholds (by simp)
    (by simp [dBig])
    (by norm_num [defaultThresholds, total_chars, detChars, dBig, String.length])
    (by norm_num)

/-- C7, counterexample: the claim fails as stated.  The driver keeps one
`num_rejected` counter: a file whose load fails and a file classified
`meme` produce literally identical final driver states, so the final
tallies cannot separate io errors from content rejections. -/
theorem claim7_counterexample :
    fErr.load = Option.none ∧ fMeme.load = some Verdict.meme
    ∧ runDriver emptyState [fErr] = runDriver emptyState [fMeme] :=
  ⟨rfl, rfl, rfl⟩

/-- C7, amended: a file that fails to load is treated as a rejection —
copied to the rejected directory and counted in `num_rejected` — and the
batch continues with the remaining files (every file is processed exactly
once); but the rejected tally is a single counter shared with meme
rejections, with no distinct cause tag. -/
theorem claim7_amended_single_tally (l1 l2 : List SrcFile) (f : SrcFile)
    (s : DriverState) (hf : f.load = Option.none) :
    runDriver s (l1 ++ f :: l2) =
      runDriver { runDriver s l1 with
        rejected := copyIfAbsent (runDriver s l1).rejected f.name f.content,
        num_rejected := (runDriver s l1).num_rejected + 1 } l2
    ∧ (runDriver s (l1 ++ f :: l2)).num_kept
        + (runDriver s (l1 ++ f :: l2)).num_rejected
      = s.num_kept + s.num_rejected + l1.length + 1 + l2.length := by
  constructor
  · rw [runDriver_append, runDriver_cons]
    congr 1
    simp [processFile, hf]
  · rw [runDriver_total]
    simp
    omega

/-- C7, witness: the amended theorem applied to a single failing file. -/
theorem claim7_witness :
    runDriver emptyState ([] ++ fErr :: []) =
      runDriver { runDriver emptyState ([] : List SrcFile) with
        rejected := copyIfAbsent
          (runDriver emptyState ([] : List SrcFile)).rejected fErr.name
          fErr.content,
        num_rejected :=
          (runDriver emptyState ([] : List SrcFile)).num_rejected + 1 } []
    ∧ (runDriver emptyState ([] ++ fErr :: [])).num_kept
        + (runDriver emptyState ([] ++ fErr :: [])).num_rejected
      = emptyState.num_kept + emptyState.num_rejected
        + ([] : List SrcFile).length + 1 + ([] : List SrcFile).length :=
  claim7_amended_single_tally [] [] fErr emptyState rfl

/-- C8: a second driver run over the same file list, starting from the
directories the first run produced, yields the same kept/rejected counts
and leaves both directories exactly as the first run left them; moreover
any destination file that already exists by name keeps its content through
any run (no overwriting). -/
theorem claim8_idempotent (files : List SrcFile) :
    (rerun files).num_kept = (runDriver emptyState files).num_kept
    ∧ (rerun files).num_rejected = (runDriver emptyState files).num_rejected
    ∧ (rerun files).dst = (runDriver emptyState files).dst
    ∧ (rerun files).rejected = (runDriver emptyState files).rejected
    ∧ (∀ (s : DriverState) (n : String) (c : ℕ), s.dst.lookup n = some c →
        (runDriver s files).dst.lookup n = some c)
    ∧ (∀ (s : DriverState) (n : String) (c : ℕ),
        s.rejected.lookup n = some c →
        (runDriver s files).rejected.lookup n = some c) := by
  have hcov := runDriver_covers files emptyState
  have hstab := runDriver_stable files
    ⟨(runDriver emptyState files).dst, (runDriver emptyState files).rejected,
      0, 0⟩
    (by intro f hf; exact hcov f hf)
  refine ⟨?_, ?_, hstab.1, hstab.2,
    runDriver_dst_lookup files, runDriver_rejected_lookup files⟩
  · simp [rerun, runDriver_num_kept, emptyState]
  · simp [rerun, runDriver_num_rejected, emptyState]

/-- C8, witness: the theorem applied to a one-file list, plus preservation
of a pre-existing destination entry. -/
theorem claim8_witness :
    (rerun [fMeme]).num_kept = (runDriver emptyState [fMeme]).num_kept
    ∧ (runDriver ⟨[("z", 9)], [], 0, 0⟩ [fMeme]).dst.lookup "z" = some 9 :=
  ⟨(claim8_idempotent [fMeme]).1,
   (claim8_idempotent [fMeme]).2.2.2.2.1 ⟨[("z", 9)], [], 0, 0⟩ "z" 9 rfl⟩

/-- C9: the two-way classifier returns `text_present` iff the combined text
length reaches `MIN_TOTAL_CHARS`, and two detection lists with the same
texts (any geometry) classify identically. -/
theorem claim9_binary_chars_only (r1 r2 : List Detection)
    (h : r1.map Detection.text = r2.map Detection.text) :
    (has_text_easyocr r1 = true ↔ MIN_TOTAL_CHARS ≤ total_chars r1)
    ∧ has_text_easyocr r1 = has_text_easyocr r2 := by
  have hchars : total_chars r1 = total_chars r2 := by
    unfold total_chars detChars
    have e1 : r1.map (fun d => d.text.length)
        = (r1.map Detection.text).map String.length := by
      rw [List.map_map]; rfl
    have e2 : r2.map (fun d => d.text.length)
        = (r2.map Detection.text).map String.length := by
      rw [List.map_map]; rfl
    rw [e1, e2, h]
  constructor
  · simp [has_text_easyocr]
  · simp [has_text_easyocr, hchars]

/-- C9, witness: two single-detection lists with the same text but
different regions and confidences. -/
theorem claim9_witness :
    (has_text_easyocr [dBig] = true ↔ MIN_TOTAL_CHARS ≤ total_chars [dBig])
    ∧ has_text_easyocr [dBig] = has_text_easyocr [dAlt] :=
  claim9_binary_chars_only [dBig] [dAlt] rfl

/-- C10: with default thresholds and a positive-size image, appending any
detection with at least one point to a list classified `meme` still yields
`meme` — added text never demotes a meme verdict. -/
theorem claim10_meme_monotone (l : List Detection) (d : Detection) (w h : ℕ)
    (hw : 0 < w) (hh : 0 < h) (hd : d.region ≠ [])
    (hm : classify_text_type l w h defaultThresholds = .ok .meme) :
    classify_text_type (l ++ [d]) w h defaultThresholds = .ok .meme :=
  classify_meme_mono defaultThresholds l d w h hw hh hd hm

/-- C10, witness: a full-image meme detection stays `meme` after a small
overlay-like detection is appended. -/
theorem claim10_witness :
    classify_text_type ([dBig] ++ [dSmall]) 10 10 defaultThresholds
      = .ok .meme :=
  claim10_meme_monotone [dBig] dSmall 10 10 (by decide) (by decide)
    (by simp [dSmall])
    (by norm_num [classify_text_type, regionLoop, regionStep, total_chars,
      detChars, bboxArea, bboxWidth, bboxHeight, foldMin, foldMax,
      defaultThresholds, dBig, String.length])
